import Mathlib

/-!
Verification of the mondrian-schema-cat core (src/lib.rs).

The program concatenates textual fragments of a Mondrian schema document.
Text is modelled as `List Char`; Rust's `str::find` (first occurrence of a
literal pattern, returning the index of its first character) is modelled by
`findSub`, Rust's `s[i..]` by `List.drop i`, and Rust's fallible slicing
`s.get(i..k)` by `sliceGet`.

The crate's `error` module is not part of the sources; `lib.rs` produces its
errors from string messages (`"...".into()`), so errors are modelled as the
message text itself, via `Except (List Char)`.
-/

namespace MondrianSchemaCat

/-- Model of Rust `str::find` for a literal pattern: index of the first
occurrence of `pat` as a contiguous sublist of `text`, `none` if absent. -/
def findSub (pat : List Char) : List Char → Option Nat
  | [] => if pat.isEmpty then some 0 else none
  | c :: rest =>
      if pat.isPrefixOf (c :: rest) then some 0
      else (findSub pat rest).map (fun i => i + 1)

/-- Model of Rust `s.get(i..k)`: the slice from `i` (inclusive) to `k`
(exclusive), `none` when the range is out of bounds. -/
def sliceGet (text : List Char) (i k : Nat) : Option (List Char) :=
  if i ≤ k ∧ k ≤ text.length then some ((text.drop i).take (k - i)) else none

/-- `SCHEMA_TAG_OPEN` from lib.rs. -/
def SCHEMA_TAG_OPEN : List Char := "<Schema name=\"".toList

/-- `SCHEMA_TAG_CLOSE` from lib.rs. -/
def SCHEMA_TAG_CLOSE : List Char := "</Schema>".toList

/-- `CUBE_TAG_OPEN` from lib.rs. -/
def CUBE_TAG_OPEN : List Char := "<Cube".toList

/-- `DIM_TAG_OPEN` from lib.rs. -/
def DIM_TAG_OPEN : List Char := "<Dimension".toList

/-- `VIRTUALCUBE_TAG_OPEN` from lib.rs. -/
def VIRTUALCUBE_TAG_OPEN : List Char := "<VirtualCube".toList

/-- The four optional spans extracted from one fragment (struct `Fragment`). -/
structure Fragment where
  schema_name : Option (List Char)
  shared_dims : Option (List Char)
  cubes : Option (List Char)
  virtual_cubes : Option (List Char)
deriving DecidableEq

/-- `Fragment::get_schema_name`: span between the end of the first schema-open
marker and the next quote character. -/
def get_schema_name (fragment : List Char) : Option (List Char) :=
  ((findSub SCHEMA_TAG_OPEN fragment).map
      (fun i => i + SCHEMA_TAG_OPEN.length)).bind
    (fun i =>
      (findSub ['\"'] (fragment.drop i)).bind
        (fun j => sliceGet fragment i (i + j)))

/-- `Fragment::get_shared_dims`: the shared-vs-nested dimension heuristic. -/
def get_shared_dims (fragment : List Char) : Option (List Char) :=
  match findSub CUBE_TAG_OPEN fragment with
  | some first_cube_idx =>
      (findSub DIM_TAG_OPEN fragment).bind
        (fun i =>
          (findSub CUBE_TAG_OPEN (fragment.drop i)).bind
            (fun j =>
              if i + j = first_cube_idx then sliceGet fragment i (i + j)
              else none))
  | none =>
      (findSub DIM_TAG_OPEN fragment).bind
        (fun i =>
          ((findSub SCHEMA_TAG_CLOSE (fragment.drop i)).or
              (some (fragment.length - i))).bind
            (fun j => sliceGet fragment i (i + j)))

/-- `Fragment::get_cubes`: from the first cube-open marker to the first
schema-close marker after it, or to the end of the text. -/
def get_cubes (fragment : List Char) : Option (List Char) :=
  (findSub CUBE_TAG_OPEN fragment).bind
    (fun i =>
      ((findSub SCHEMA_TAG_CLOSE (fragment.drop i)).or
          (some (fragment.length - i))).bind
        (fun j => sliceGet fragment i (i + j)))

/-- `Fragment::get_virtual_cubes`: same rule as `get_cubes`, anchored on the
virtual-cube-open marker. -/
def get_virtual_cubes (fragment : List Char) : Option (List Char) :=
  (findSub VIRTUALCUBE_TAG_OPEN fragment).bind
    (fun i =>
      ((findSub SCHEMA_TAG_CLOSE (fragment.drop i)).or
          (some (fragment.length - i))).bind
        (fun j => sliceGet fragment i (i + j)))

/-- `Fragment::process_fragment`: run the four extractions. -/
def process_fragment (fragment : List Char) : Fragment :=
  { schema_name := get_schema_name fragment
    shared_dims := get_shared_dims fragment
    cubes := get_cubes fragment
    virtual_cubes := get_virtual_cubes fragment }

/-- Error message of `fragments_to_schema` when two distinct names occur. -/
def CONFLICT_ERR : List Char := "More than one schema name found".toList

/-- Error message of `fragments_to_schema` when no name is declared. -/
def NO_NAME_ERR : List Char := "No schema name found".toList

/-- The schema-name resolution loop of `fragments_to_schema`: track the first
declared name, fail on the first later name that differs. -/
def resolveName (acc : Option (List Char)) :
    List Fragment → Except (List Char) (Option (List Char))
  | [] => Except.ok acc
  | f :: rest =>
      match f.schema_name with
      | none => resolveName acc rest
      | some current =>
          match acc with
          | some stored =>
              if stored ≠ current then Except.error CONFLICT_ERR
              else resolveName (some stored) rest
          | none => resolveName (some current) rest

/-- One push loop of `fragments_to_schema`: walk the fragments in order and
append the selected span of each onto the accumulated string, skipping the
absent ones. -/
def appendSpans (get : Fragment → Option (List Char)) (acc : List Char)
    (frags : List Fragment) : List Char :=
  frags.foldl
    (fun acc f =>
      match get f with
      | some s => acc ++ s
      | none => acc) acc

/-- `fragments_to_schema`: process every fragment, resolve the schema name,
then push the shared-dims, cubes and virtual-cubes spans in fragment order
between the schema open and close tags. -/
def fragments_to_schema (fragments : List (List Char)) :
    Except (List Char) (List Char) :=
  match resolveName none (fragments.map process_fragment) with
  | Except.error e => Except.error e
  | Except.ok none => Except.error NO_NAME_ERR
  | Except.ok (some name) =>
      Except.ok
        (appendSpans Fragment.virtual_cubes
          (appendSpans Fragment.cubes
            (appendSpans Fragment.shared_dims
              ("<Schema name=\"".toList ++ name ++ "\">\n".toList)
              (fragments.map process_fragment))
            (fragments.map process_fragment))
          (fragments.map process_fragment)
        ++ "\n</Schema>".toList)

/-- A complete well-formed schema document used as a concrete test input:
name, one shared dimension, one cube, one virtual cube. -/
def FULL_DOC : List Char :=
  "<Schema name=\"n\"><Dimension></Dimension><Cube></Cube><VirtualCube></VirtualCube></Schema>".toList

/-- A complete schema document without virtual cubes, used as a concrete
test input for the output-layout theorem. -/
def DIM_CUBE_DOC : List Char :=
  "<Schema name=\"a\"><Dimension></Dimension><Cube></Cube></Schema>".toList

/-- The merge output for `[DIM_CUBE_DOC]`. -/
def DIM_CUBE_OUT : List Char :=
  "<Schema name=\"a\">\n<Dimension></Dimension><Cube></Cube>\n</Schema>".toList

/- Helper lemmas about the primitive scanning operations. -/

theorem isPrefixOf_length {pat l : List Char} (h : pat.isPrefixOf l = true) :
    pat.length ≤ l.length := by
  induction pat generalizing l with
  | nil => exact Nat.zero_le _
  | cons p ps ih =>
    cases l with
    | nil => simp [ List.isPrefixOf] at h
    | cons c cs =>
      simp only [ List.isPrefixOf, Bool.and_eq_true, beq_iff_eq] at h
      simpa using Nat.succ_le_succ (ih h.2)

theorem findSub_le {pat text : List Char} {i : Nat}
    (h : findSub pat text = some i) : i + pat.length ≤ text.length := by
  induction text generalizing i with
  | nil =>
    simp only [findSub] at h
    split at h
    · rename_i hp
      cases h
      simp [ List.isEmpty_iff.mp hp]
    · cases h
  | cons c rest ih =>
    simp only [findSub] at h
    split at h
    · rename_i hp
      cases h
      simpa using isPrefixOf_length hp
    · obtain ⟨j, hj, rfl⟩ := Option.map_eq_some'.mp h
      have := ih hj
      simp only [List.length_cons]
      omega

theorem findSub_le_length {pat text : List Char} {i : Nat}
    (h : findSub pat text = some i) : i ≤ text.length := by
  have := findSub_le h
  omega

theorem sliceGet_eq {text : List Char} {i k : Nat} (h1 : i ≤ k)
    (h2 : k ≤ text.length) :
    sliceGet text i k = some ((text.drop i).take (k - i)) := by
  simp [sliceGet, h1, h2]

theorem take_drop_within (t : List Char) (i j : Nat) :
    (t.drop i).take j <:+: t := by
  refine ⟨t.take i, (t.drop i).drop j, ?_⟩
  rw [List.append_assoc, List.take_append_drop, List.take_append_drop]

theorem drop_within (t : List Char) (i : Nat) : t.drop i <:+: t := by
  refine ⟨t.take i, [], ?_⟩
  rw [List.append_nil, List.take_append_drop]

theorem take_full_drop {t : List Char} {i : Nat} (h : i ≤ t.length) :
    (t.drop i).take (t.length - i) = t.drop i := by
  apply List.take_of_length_le
  simp

/-- The common "from `i` to the first close tag after `i`, or to the end"
shape shared by `get_cubes`, `get_virtual_cubes` and the cube-free branch of
`get_shared_dims`. -/
theorem tail_span_eq (text pat : List Char) (i : Nat) (hi : i ≤ text.length) :
    ((findSub pat (text.drop i)).or (some (text.length - i))).bind
        (fun j => sliceGet text i (i + j)) =
      match findSub pat (text.drop i) with
      | some j => some ((text.drop i).take j)
      | none => some (text.drop i) := by
  cases hj : findSub pat (text.drop i) with
  | some j =>
    have hjl : j ≤ text.length - i := by
      have := findSub_le_length hj
      simpa using this
    simp only [Option.or, Option.bind]
    rw [sliceGet_eq (Nat.le_add_right i j) (by omega)]
    rw [Nat.add_sub_cancel_left i j]
  | none =>
    simp only [Option.or, Option.bind]
    rw [sliceGet_eq (Nat.le_add_right _ _) (by omega)]
    rw [Nat.add_sub_cancel_left i (text.length - i), take_full_drop hi]

/-- Claim C1: `get_shared_dims` follows the index-comparison rule.  When a
cube-open marker occurs anywhere, the result is the span from the first
dimension-open marker `d` to the first cube-open marker at or after `d`
exactly when that cube marker is the first one of the whole text, and none
in every other case; when no cube-open marker occurs, the result is the span
from `d` to the first schema-close marker at or after `d`, or to the end of
the text if none, and none when there is no dimension-open marker. -/
theorem get_shared_dims_rule (fragment : List Char) :
    get_shared_dims fragment =
      match findSub CUBE_TAG_OPEN fragment with
      | some first_cube_idx =>
          (findSub DIM_TAG_OPEN fragment).bind
            (fun d =>
              (findSub CUBE_TAG_OPEN (fragment.drop d)).bind
                (fun c =>
                  if d + c = first_cube_idx then
                    some ((fragment.drop d).take c)
                  else none))
      | none =>
          (findSub DIM_TAG_OPEN fragment).bind
            (fun d =>
              match findSub SCHEMA_TAG_CLOSE (fragment.drop d) with
              | some j => some ((fragment.drop d).take j)
              | none => some (fragment.drop d)) := by
  unfold get_shared_dims
  cases hcube : findSub CUBE_TAG_OPEN fragment with
  | some first_cube_idx =>
    cases hd : findSub DIM_TAG_OPEN fragment with
    | none => rfl
    | some d =>
      simp only [Option.bind]
      cases hc : findSub CUBE_TAG_OPEN (fragment.drop d) with
      | none => rfl
      | some c =>
        simp only [Option.bind]
        by_cases heq : d + c = first_cube_idx
        · rw [if_pos heq, if_pos heq]
          have hdl : d ≤ fragment.length := findSub_le_length hd
          have hcl : c ≤ fragment.length - d := by
            have := findSub_le_length hc
            simpa using this
          rw [sliceGet_eq (Nat.le_add_right d c) (by omega)]
          rw [Nat.add_sub_cancel_left d c]
        · rw [if_neg heq, if_neg heq]
  | none =>
    cases hd : findSub DIM_TAG_OPEN fragment with
    | none => rfl
    | some d =>
      simp only [Option.bind]
      exact tail_span_eq fragment SCHEMA_TAG_CLOSE d (findSub_le_length hd)

/-- Claim C6: `get_schema_name` returns none when the schema-open marker is
absent; otherwise the span strictly between the end of the first occurrence
of the marker and the next quote character after it, and none when no
closing quote exists after marker end. -/
theorem get_schema_name_rule (fragment : List Char) :
    get_schema_name fragment =
      (findSub SCHEMA_TAG_OPEN fragment).bind
        (fun m =>
          (findSub ['\"'] (fragment.drop (m + SCHEMA_TAG_OPEN.length))).map
            (fun j =>
              (fragment.drop (m + SCHEMA_TAG_OPEN.length)).take j)) := by
  unfold get_schema_name
  cases hm : findSub SCHEMA_TAG_OPEN fragment with
  | none => rfl
  | some m =>
    simp only [Option.map, Option.bind]
    have hml : m + SCHEMA_TAG_OPEN.length ≤ fragment.length := findSub_le hm
    cases hq : findSub ['\"'] (fragment.drop (m + SCHEMA_TAG_OPEN.length)) with
    | none => rfl
    | some j =>
      have hjl : j ≤ fragment.length - (m + SCHEMA_TAG_OPEN.length) := by
        have := findSub_le_length hq
        simpa using this
      simp only []
      rw [sliceGet_eq (Nat.le_add_right _ _) (by omega)]
      rw [Nat.add_sub_cancel_left]

/-- Claim C7: `get_cubes` returns none when the cube-open marker is absent
and otherwise the span from the first cube-open marker to the first
schema-close marker at or after it, or to the end of the text if none;
`get_virtual_cubes` obeys the identical rule anchored on the
virtual-cube-open marker. -/
theorem get_cubes_and_virtual_cubes_rule (fragment : List Char) :
    (get_cubes fragment =
      (findSub CUBE_TAG_OPEN fragment).bind
        (fun i =>
          match findSub SCHEMA_TAG_CLOSE (fragment.drop i) with
          | some j => some ((fragment.drop i).take j)
          | none => some (fragment.drop i))) ∧
    (get_virtual_cubes fragment =
      (findSub VIRTUALCUBE_TAG_OPEN fragment).bind
        (fun i =>
          match findSub SCHEMA_TAG_CLOSE (fragment.drop i) with
          | some j => some ((fragment.drop i).take j)
          | none => some (fragment.drop i))) := by
  constructor
  · unfold get_cubes
    cases hi : findSub CUBE_TAG_OPEN fragment with
    | none => rfl
    | some i =>
      simp only [Option.bind]
      exact tail_span_eq fragment SCHEMA_TAG_CLOSE i (findSub_le_length hi)
  · unfold get_virtual_cubes
    cases hi : findSub VIRTUALCUBE_TAG_OPEN fragment with
    | none => rfl
    | some i =>
      simp only [Option.bind]
      exact tail_span_eq fragment SCHEMA_TAG_CLOSE i (findSub_le_length hi)

/-- Claim C8: every extraction of `process_fragment` yields either none or a
contiguous substring of the original fragment text; no extraction ever
fails, goes out of bounds, or adds, removes or reorders characters. -/
theorem process_fragment_safe (fragment : List Char) :
    (∀ s, (process_fragment fragment).schema_name = some s → s <:+: fragment) ∧
    (∀ s, (process_fragment fragment).shared_dims = some s → s <:+: fragment) ∧
    (∀ s, (process_fragment fragment).cubes = some s → s <:+: fragment) ∧
    (∀ s, (process_fragment fragment).virtual_cubes = some s →
      s <:+: fragment) := by
  have tailCase : ∀ (i : Nat) (s : List Char),
      (match findSub SCHEMA_TAG_CLOSE (fragment.drop i) with
        | some j => some ((fragment.drop i).take j)
        | none => some (fragment.drop i)) = some s → s <:+: fragment := by
    intro i s hm
    cases hq : findSub SCHEMA_TAG_CLOSE (fragment.drop i) with
    | some j =>
      rw [hq] at hm
      cases hm
      exact take_drop_within fragment i j
    | none =>
      rw [hq] at hm
      cases hm
      exact drop_within fragment i
  refine ⟨?_, ?_, ?_, ?_⟩
  · intro s h
    have h' : get_schema_name fragment = some s := h
    rw [get_schema_name_rule] at h'
    obtain ⟨m, hm, h''⟩ := Option.bind_eq_some.mp h'
    obtain ⟨j, hj, hs⟩ := Option.map_eq_some'.mp h''
    subst hs
    exact take_drop_within fragment _ j
  · intro s h
    have h' : get_shared_dims fragment = some s := h
    rw [get_shared_dims_rule] at h'
    cases hcube : findSub CUBE_TAG_OPEN fragment with
    | some first_cube_idx =>
      rw [hcube] at h'
      obtain ⟨d, hd, h''⟩ := Option.bind_eq_some.mp h'
      obtain ⟨c, hc, hite⟩ := Option.bind_eq_some.mp h''
      split at hite
      · cases hite
        exact take_drop_within fragment d c
      · cases hite
    | none =>
      rw [hcube] at h'
      obtain ⟨d, hd, hm⟩ := Option.bind_eq_some.mp h'
      exact tailCase d s hm
  · intro s h
    have h' : get_cubes fragment = some s := h
    rw [(get_cubes_and_virtual_cubes_rule fragment).1] at h'
    obtain ⟨i, hi, hm⟩ := Option.bind_eq_some.mp h'
    exact tailCase i s hm
  · intro s h
    have h' : get_virtual_cubes fragment = some s := h
    rw [(get_cubes_and_virtual_cubes_rule fragment).2] at h'
    obtain ⟨i, hi, hm⟩ := Option.bind_eq_some.mp h'
    exact tailCase i s hm

/-- Witness for C8: on `FULL_DOC` all four extractions are present and each
returned span is a contiguous substring of the document. -/
theorem process_fragment_safe_witness :
    ("n".toList <:+: FULL_DOC) ∧
    ("<Dimension></Dimension>".toList <:+: FULL_DOC) ∧
    ("<Cube></Cube><VirtualCube></VirtualCube>".toList <:+: FULL_DOC) ∧
    ("<VirtualCube></VirtualCube>".toList <:+: FULL_DOC) :=
  ⟨(process_fragment_safe FULL_DOC).1 _ (by decide),
   (process_fragment_safe FULL_DOC).2.1 _ (by decide),
   (process_fragment_safe FULL_DOC).2.2.1 _ (by decide),
   (process_fragment_safe FULL_DOC).2.2.2 _ (by decide)⟩

/- Equation lemmas for the name-resolution loop. -/

theorem resolveName_nil (acc : Option (List Char)) :
    resolveName acc [] = Except.ok acc := rfl

theorem resolveName_cons_none {f : Fragment} (acc : Option (List Char))
    (rest : List Fragment) (hf : f.schema_name = none) :
    resolveName acc (f :: rest) = resolveName acc rest := by
  simp [resolveName, hf]

theorem resolveName_cons_some_none {f : Fragment} {current : List Char}
    (rest : List Fragment) (hf : f.schema_name = some current) :
    resolveName none (f :: rest) = resolveName (some current) rest := by
  simp [resolveName, hf]

theorem resolveName_cons_some_some {f : Fragment} {current : List Char}
    (stored : List Char) (rest : List Fragment)
    (hf : f.schema_name = some current) :
    resolveName (some stored) (f :: rest) =
      if stored ≠ current then Except.error CONFLICT_ERR
      else resolveName (some stored) rest := by
  simp only [resolveName, hf]

/-- Every name declared by a fragment scanned by a successful resolution run
equals the resolved value (and so does the incoming accumulator). -/
theorem resolveName_ok_names {frags : List Fragment} {acc out : Option (List Char)}
    (h : resolveName acc frags = Except.ok out) :
    (∀ s, acc = some s → out = some s) ∧
    (∀ f ∈ frags, ∀ n, f.schema_name = some n → out = some n) := by
  induction frags generalizing acc with
  | nil =>
    rw [resolveName_nil, Except.ok.injEq] at h
    subst h
    exact ⟨fun s hs => hs, by simp⟩
  | cons f rest ih =>
    cases hf : f.schema_name with
    | none =>
      rw [resolveName_cons_none acc rest hf] at h
      refine ⟨(ih h).1, ?_⟩
      intro g hg n hn
      rcases List.mem_cons.mp hg with rfl | hg'
      · rw [hf] at hn; cases hn
      · exact (ih h).2 g hg' n hn
    | some current =>
      cases acc with
      | none =>
        rw [resolveName_cons_some_none rest hf] at h
        have hout : out = some current := (ih h).1 current rfl
        refine ⟨fun s hs => (by cases hs), ?_⟩
        intro g hg n hn
        rcases List.mem_cons.mp hg with rfl | hg'
        · rw [hf] at hn; cases hn; exact hout
        · exact (ih h).2 g hg' n hn
      | some stored =>
        rw [resolveName_cons_some_some stored rest hf] at h
        split at h
        · cases h
        · rename_i hne
          have heq : stored = current := not_ne_iff.mp hne
          have hout : out = some stored := (ih h).1 stored rfl
          refine ⟨fun s hs => (by cases hs; exact hout), ?_⟩
          intro g hg n hn
          rcases List.mem_cons.mp hg with rfl | hg'
          · rw [hf] at hn; cases hn; rw [hout, heq]
          · exact (ih h).2 g hg' n hn

/-- The only error the name-resolution loop produces is the conflict
message. -/
theorem resolveName_error_msg {frags : List Fragment}
    {acc : Option (List Char)} {e : List Char}
    (h : resolveName acc frags = Except.error e) : e = CONFLICT_ERR := by
  induction frags generalizing acc with
  | nil => rw [resolveName_nil] at h; cases h
  | cons f rest ih =>
    cases hf : f.schema_name with
    | none =>
      rw [resolveName_cons_none acc rest hf] at h
      exact ih h
    | some current =>
      cases acc with
      | none =>
        rw [resolveName_cons_some_none rest hf] at h
        exact ih h
      | some stored =>
        rw [resolveName_cons_some_some stored rest hf] at h
        split at h
        · cases h; rfl
        · exact ih h

/-- When no fragment declares a name, resolution returns the accumulator. -/
theorem resolveName_all_none {frags : List Fragment}
    (hall : ∀ f ∈ frags, f.schema_name = none) (acc : Option (List Char)) :
    resolveName acc frags = Except.ok acc := by
  induction frags with
  | nil => exact resolveName_nil acc
  | cons f rest ih =>
    have hf : f.schema_name = none := hall f (List.mem_cons_self f rest)
    rw [resolveName_cons_none acc rest hf]
    exact ih (fun g hg => hall g (List.mem_cons_of_mem f hg))

/-- A resolution run that ends with no name saw no declared name at all. -/
theorem resolveName_ok_none {frags : List Fragment} {acc : Option (List Char)}
    (h : resolveName acc frags = Except.ok none) :
    acc = none ∧ ∀ f ∈ frags, f.schema_name = none := by
  induction frags generalizing acc with
  | nil =>
    rw [resolveName_nil, Except.ok.injEq] at h
    exact ⟨h, by simp⟩
  | cons f rest ih =>
    cases hf : f.schema_name with
    | none =>
      rw [resolveName_cons_none acc rest hf] at h
      refine ⟨(ih h).1, ?_⟩
      intro g hg
      rcases List.mem_cons.mp hg with rfl | hg'
      · exact hf
      · exact (ih h).2 g hg'
    | some current =>
      cases acc with
      | none =>
        rw [resolveName_cons_some_none rest hf] at h
        cases (ih h).1
      | some stored =>
        rw [resolveName_cons_some_some stored rest hf] at h
        split at h
        · cases h
        · cases (ih h).1

/-- When every declared name equals `n0`, resolution from `some n0`
succeeds with `n0`. -/
theorem resolveName_all_eq {frags : List Fragment} {n0 : List Char}
    (hall : ∀ f ∈ frags, ∀ n, f.schema_name = some n → n = n0) :
    resolveName (some n0) frags = Except.ok (some n0) := by
  induction frags with
  | nil => exact resolveName_nil (some n0)
  | cons f rest ih =>
    have ihrest := ih (fun g hg n hn =>
      hall g (List.mem_cons_of_mem f hg) n hn)
    cases hf : f.schema_name with
    | none => rw [resolveName_cons_none _ rest hf]; exact ihrest
    | some current =>
      have hcur : current = n0 := hall f (List.mem_cons_self f rest) current hf
      rw [resolveName_cons_some_some n0 rest hf]
      rw [if_neg (by simp [hcur])]
      exact ihrest

/-- When all declared names agree and at least one exists, resolution from
`none` succeeds with some name. -/
theorem resolveName_agree {frags : List Fragment}
    (hagree : ∀ f ∈ frags, ∀ g ∈ frags, ∀ m n, f.schema_name = some m →
      g.schema_name = some n → m = n)
    (hex : ∃ f ∈ frags, ∃ n, f.schema_name = some n) :
    ∃ n0, resolveName none frags = Except.ok (some n0) := by
  induction frags with
  | nil => obtain ⟨f, hf, _⟩ := hex; cases hf
  | cons f rest ih =>
    cases hf : f.schema_name with
    | some current =>
      refine ⟨current, ?_⟩
      rw [resolveName_cons_some_none rest hf]
      exact resolveName_all_eq (fun g hg n hn =>
        hagree g (List.mem_cons_of_mem f hg) f (List.mem_cons_self f rest)
          n current hn hf)
    | none =>
      rw [resolveName_cons_none none rest hf]
      apply ih
      · intro g hg g' hg' m n hm hn
        exact hagree g (List.mem_cons_of_mem f hg)
          g' (List.mem_cons_of_mem f hg') m n hm hn
      · obtain ⟨g, hg, n, hn⟩ := hex
        rcases List.mem_cons.mp hg with rfl | hg'
        · rw [hf] at hn; cases hn
        · exact ⟨g, hg', n, hn⟩

/- Lemmas about the output-assembly stage of the merger. -/

theorem appendSpans_eq (get : Fragment → Option (List Char))
    (acc : List Char) (frags : List Fragment) :
    appendSpans get acc frags = acc ++ (frags.filterMap get).flatten := by
  induction frags generalizing acc with
  | nil => simp [appendSpans]
  | cons f rest ih =>
    cases hf : get f with
    | none =>
      have h1 : appendSpans get acc (f :: rest) = appendSpans get acc rest := by
        simp [appendSpans, hf]
      rw [h1, ih]
      simp [List.filterMap_cons, hf]
    | some s =>
      have h1 : appendSpans get acc (f :: rest) =
          appendSpans get (acc ++ s) rest := by
        simp [appendSpans, hf]
      rw [h1, ih]
      simp [List.filterMap_cons, hf, List.append_assoc]

/-- Unfolding of `fragments_to_schema` on a successful name resolution. -/
theorem fragments_to_schema_ok_eq {fragments : List (List Char)}
    {name : List Char}
    (hres : resolveName none (fragments.map process_fragment) =
      Except.ok (some name)) :
    fragments_to_schema fragments = Except.ok
      ("<Schema name=\"".toList ++ name ++ "\">\n".toList
        ++ ((fragments.map process_fragment).filterMap
             Fragment.shared_dims).flatten
        ++ ((fragments.map process_fragment).filterMap Fragment.cubes).flatten
        ++ ((fragments.map process_fragment).filterMap
             Fragment.virtual_cubes).flatten
        ++ "\n</Schema>".toList) := by
  unfold fragments_to_schema
  rw [hres]
  simp [appendSpans_eq, List.append_assoc]

/-- Unfolding of `fragments_to_schema` on a failed name resolution. -/
theorem fragments_to_schema_error_eq {fragments : List (List Char)}
    {e : List Char}
    (hres : resolveName none (fragments.map process_fragment) =
      Except.error e) :
    fragments_to_schema fragments = Except.error e := by
  unfold fragments_to_schema
  rw [hres]

/-- Unfolding of `fragments_to_schema` when no name was declared. -/
theorem fragments_to_schema_none_eq {fragments : List (List Char)}
    (hres : resolveName none (fragments.map process_fragment) =
      Except.ok none) :
    fragments_to_schema fragments = Except.error NO_NAME_ERR := by
  unfold fragments_to_schema
  rw [hres]

/-- Claim C2: whenever `fragments_to_schema` succeeds on a non-empty list of
fragments, the returned text is the schema-open marker, the resolved name,
a quote-bracket and newline, then all present shared-dims spans, then all
present cubes spans, then all present virtual-cubes spans, each group
concatenated without separator in original fragment order, then a newline
and the schema-close marker. -/
theorem fragments_to_schema_layout (fragments : List (List Char))
    (out : List Char) (hne : fragments ≠ [])
    (h : fragments_to_schema fragments = Except.ok out) :
    ∃ name,
      resolveName none (fragments.map process_fragment) =
        Except.ok (some name) ∧
      out = "<Schema name=\"".toList ++ name ++ "\">\n".toList
        ++ ((fragments.map process_fragment).filterMap
             Fragment.shared_dims).flatten
        ++ ((fragments.map process_fragment).filterMap Fragment.cubes).flatten
        ++ ((fragments.map process_fragment).filterMap
             Fragment.virtual_cubes).flatten
        ++ "\n</Schema>".toList := by
  cases hres : resolveName none (fragments.map process_fragment) with
  | error e => rw [fragments_to_schema_error_eq hres] at h; cases h
  | ok o =>
    cases o with
    | none => rw [fragments_to_schema_none_eq hres] at h; cases h
    | some name =>
      refine ⟨name, rfl, ?_⟩
      rw [fragments_to_schema_ok_eq hres, Except.ok.injEq] at h
      exact h.symm

/-- Witness for C2: merging the single document `DIM_CUBE_DOC` produces
exactly the layout stated by the theorem. -/
theorem fragments_to_schema_layout_witness :
    ∃ name,
      resolveName none ([DIM_CUBE_DOC].map process_fragment) =
        Except.ok (some name) ∧
      DIM_CUBE_OUT = "<Schema name=\"".toList ++ name ++ "\">\n".toList
        ++ (([DIM_CUBE_DOC].map process_fragment).filterMap
             Fragment.shared_dims).flatten
        ++ (([DIM_CUBE_DOC].map process_fragment).filterMap
             Fragment.cubes).flatten
        ++ (([DIM_CUBE_DOC].map process_fragment).filterMap
             Fragment.virtual_cubes).flatten
        ++ "\n</Schema>".toList :=
  fragments_to_schema_layout [DIM_CUBE_DOC] DIM_CUBE_OUT (by simp) (by rfl)

/-- Claim C4: when two fragments of the input declare different schema names
(exact text comparison), `fragments_to_schema` returns the conflicting
schema-names error. -/
theorem fragments_to_schema_conflict (fragments : List (List Char))
    (f1 f2 : List Char) (h1 : f1 ∈ fragments) (h2 : f2 ∈ fragments)
    (a b : List Char) (ha : get_schema_name f1 = some a)
    (hb : get_schema_name f2 = some b) (hne : a ≠ b) :
    fragments_to_schema fragments = Except.error CONFLICT_ERR := by
  cases hres : resolveName none (fragments.map process_fragment) with
  | ok out =>
    exfalso
    have hmem1 : process_fragment f1 ∈ fragments.map process_fragment :=
      List.mem_map_of_mem _ h1
    have hmem2 : process_fragment f2 ∈ fragments.map process_fragment :=
      List.mem_map_of_mem _ h2
    have e1 : out = some a := (resolveName_ok_names hres).2 _ hmem1 a ha
    have e2 : out = some b := (resolveName_ok_names hres).2 _ hmem2 b hb
    rw [e1] at e2
    exact hne (Option.some_inj.mp e2)
  | error e =>
    rw [resolveName_error_msg hres] at hres
    exact fragments_to_schema_error_eq hres

/-- Witness for C4: the two-fragment example from the spec fails with the
conflicting-names error. -/
theorem fragments_to_schema_conflict_witness :
    fragments_to_schema ["<Schema name=\"a\"></Schema>".toList,
        "<Schema name=\"b\"></Schema>".toList] =
      Except.error CONFLICT_ERR :=
  fragments_to_schema_conflict _
    ("<Schema name=\"a\"></Schema>".toList)
    ("<Schema name=\"b\"></Schema>".toList)
    (by simp) (by simp) ("a".toList) ("b".toList)
    (by decide) (by decide) (by decide)

/-- Claim C5: `fragments_to_schema` returns the missing-schema-name error
exactly when no fragment yields a schema name, and succeeds whenever at
least one fragment declares a name and all declared names agree. -/
theorem fragments_to_schema_no_name (fragments : List (List Char)) :
    (fragments_to_schema fragments = Except.error NO_NAME_ERR ↔
      ∀ f ∈ fragments, get_schema_name f = none) ∧
    ((∃ f ∈ fragments, get_schema_name f ≠ none) →
      (∀ f ∈ fragments, ∀ g ∈ fragments, ∀ m n,
        get_schema_name f = some m → get_schema_name g = some n → m = n) →
      ∃ out, fragments_to_schema fragments = Except.ok out) := by
  constructor
  · constructor
    · intro h
      cases hres : resolveName none (fragments.map process_fragment) with
      | error e =>
        rw [fragments_to_schema_error_eq hres] at h
        rw [resolveName_error_msg hres] at h
        rw [Except.error.injEq] at h
        exact absurd h (by decide)
      | ok o =>
        cases o with
        | some name =>
          rw [fragments_to_schema_ok_eq hres] at h
          cases h
        | none =>
          intro f hf
          have := (resolveName_ok_none hres).2 (process_fragment f)
            (List.mem_map_of_mem _ hf)
          exact this
    · intro hall
      apply fragments_to_schema_none_eq
      apply resolveName_all_none
      intro g hg
      obtain ⟨x, hx, rfl⟩ := List.mem_map.mp hg
      exact hall x hx
  · intro hex hagree
    have hex' : ∃ g ∈ fragments.map process_fragment, ∃ n,
        g.schema_name = some n := by
      obtain ⟨f, hf, hne⟩ := hex
      cases hname : get_schema_name f with
      | none => exact absurd hname hne
      | some n =>
        exact ⟨process_fragment f, List.mem_map_of_mem _ hf, n, hname⟩
    have hagree' : ∀ g ∈ fragments.map process_fragment,
        ∀ g' ∈ fragments.map process_fragment, ∀ m n,
        g.schema_name = some m → g'.schema_name = some n → m = n := by
      intro g hg g' hg' m n hm hn
      obtain ⟨x, hx, rfl⟩ := List.mem_map.mp hg
      obtain ⟨y, hy, rfl⟩ := List.mem_map.mp hg'
      exact hagree x hx y hy m n hm hn
    obtain ⟨n0, hres⟩ := resolveName_agree hagree' hex'
    exact ⟨_, fragments_to_schema_ok_eq hres⟩

/-- Witness for C5: merging the single fragment with no schema tag fails
with the missing-schema-name error. -/
theorem fragments_to_schema_no_name_witness :
    fragments_to_schema ["<Cube></Cube>".toList] =
      Except.error NO_NAME_ERR :=
  (fragments_to_schema_no_name ["<Cube></Cube>".toList]).1.mpr (by decide)

/-- Claim C9: merging the empty sequence of fragments returns the
missing-schema-name error and produces no output document. -/
theorem fragments_to_schema_empty_input :
    fragments_to_schema [] = Except.error NO_NAME_ERR := rfl

/-- Claim C10: an empty schema name is accepted, not treated as absent:
`get_schema_name` on a fragment consisting of `<Schema name="">` returns the
empty span, and merging that fragment alone succeeds with output beginning
with `<Schema name="">` and the empty resolved name. -/
theorem empty_schema_name_accepted :
    get_schema_name "<Schema name=\"\">".toList = some [] ∧
    fragments_to_schema ["<Schema name=\"\">".toList] =
      Except.ok ("<Schema name=\"\">\n\n</Schema>".toList) ∧
    "<Schema name=\"\">".toList <+: "<Schema name=\"\">\n\n</Schema>".toList :=
  ⟨rfl, rfl, ⟨"\n\n</Schema>".toList, rfl⟩⟩

/-- Claim C3 (failing-input evaluation): round-tripping the single complete
well-formed document `FULL_DOC` through `fragments_to_schema` duplicates
the virtual-cube block — the cubes span extends to the schema-close marker
and therefore already contains `<VirtualCube></VirtualCube>`, which is then
appended a second time as the virtual-cubes span. -/
theorem fragments_to_schema_roundtrip_duplicates :
    fragments_to_schema [FULL_DOC] =
      Except.ok
        ("<Schema name=\"n\">\n<Dimension></Dimension><Cube></Cube><VirtualCube></VirtualCube><VirtualCube></VirtualCube>\n</Schema>".toList) :=
  rfl

end MondrianSchemaCat
